import Mathlib

/-!
Shallow embedding of `src/script.js` (EmergencyContactsApp) and proofs about it.

The source is a browser script; we embed each routine as a pure Lean function,
passing the relevant browser state (`localStorage` content, DOM fragments,
pending timers) explicitly.  Outcomes of browser calls that can fail
(`JSON.parse`, `localStorage.setItem`, `navigator.clipboard.writeText`,
`document.execCommand`) are passed in as explicit parameters, and JavaScript
`try`/`catch` is embedded by matching on those outcomes.
-/

namespace HelpNepal

/-- One persisted usage record, as built in `storeUsageData`:
`{type, value, timestamp, userAgent: navigator.userAgent.substring(0, 100)}`.
The `type` field is one of the string literals `'phone_call'` /
`'resource_access'` used by the source. -/
structure UsageRecord where
  type : String
  value : String
  timestamp : String
  userAgent : String
  deriving DecidableEq, Repr

/-- The content under the `'emergency_contacts_usage'` localStorage key.
`good l` is content that `JSON.parse` turns into the array `l` (a missing key
is `good []`, because the source parses `localStorage.getItem(key) || '[]'`);
`corrupt` is content on which `JSON.parse` throws. -/
inductive Stored where
  | good : List UsageRecord → Stored
  | corrupt : Stored
  deriving DecidableEq, Repr

/-- `existingData.slice(-50)`: the last 50 elements of a JavaScript array
(the whole array when it is shorter).  `slice(-50)` starts at
`max(length - 50, 0)`, which is exactly truncated subtraction. -/
def sliceLast50 (l : List UsageRecord) : List UsageRecord :=
  l.drop (l.length - 50)

/-- `storeUsageData(type, value)` (script.js lines 205-223).  The whole body is
inside `try { ... } catch (error) { console.warn(...) }`: a parse failure of the
existing content or a failed `setItem` (`writeOk = false`, e.g. quota) is
swallowed and leaves the stored content unchanged. -/
def storeUsageData (type value timestamp userAgent : String)
    (s : Stored) (writeOk : Bool) : Stored :=
  match s with
  | .corrupt => .corrupt
  | .good existingData =>
    let recentData :=
      sliceLast50 (existingData ++
        [{ type := type, value := value, timestamp := timestamp,
           userAgent := userAgent }])
    if writeOk then .good recentData else .good existingData

/-- `phoneNumber.replace(/[^\d-]/g, '')` in `trackPhoneCall`: drop every
character that is not a decimal digit or a hyphen. -/
def cleanNumberOf (s : String) : String :=
  String.mk (s.data.filter (fun c => c.isDigit || c = '-'))

/-- `trackPhoneCall(phoneNumber)` (lines 166-183), restricted to its effect on
the persisted log: it stores a `'phone_call'` record whose value is the
sanitized number (the `console.log` and optional `gtag` calls have no effect
on stored state). -/
def trackPhoneCall (phoneNumber timestamp userAgent : String)
    (s : Stored) (writeOk : Bool) : Stored :=
  storeUsageData "phone_call" (cleanNumberOf phoneNumber) timestamp userAgent s writeOk

/-- `trackResourceAccess(url)` (lines 188-200), restricted to its effect on the
persisted log. -/
def trackResourceAccess (url timestamp userAgent : String)
    (s : Stored) (writeOk : Bool) : Stored :=
  storeUsageData "resource_access" url timestamp userAgent s writeOk

/-- One tracked interaction, with the ambient data (`new Date().toISOString()`,
`navigator.userAgent.substring(0,100)`) and the `setItem` outcome it runs
against. -/
inductive UsageEvent where
  | phoneCall (raw timestamp userAgent : String) (writeOk : Bool)
  | resourceAccess (url timestamp userAgent : String) (writeOk : Bool)
  deriving DecidableEq, Repr

/-- Run one tracked interaction against the stored log. -/
def runUsageEvent (s : Stored) : UsageEvent → Stored
  | .phoneCall raw ts ua w => trackPhoneCall raw ts ua s w
  | .resourceAccess url ts ua w => trackResourceAccess url ts ua s w

/-- Run a sequence of tracked interactions, oldest first. -/
def runUsageEvents (evs : List UsageEvent) (s : Stored) : Stored :=
  evs.foldl runUsageEvent s

/-- Record a list of usage records one by one via `storeUsageData`, starting
from stored content `s`, with every `setItem` succeeding. -/
def storeAll (recs : List UsageRecord) (s : Stored) : Stored :=
  recs.foldl (fun st r => storeUsageData r.type r.value r.timestamp r.userAgent st true) s

/-! ## Usage statistics (`getUsageStats`, `getMostUsed`)

`getMostUsed` builds a plain JavaScript object `counts` keyed by the record
values, then iterates it with `Object.entries`.  We therefore embed two pieces
of JavaScript object semantics:

* assigning `counts[v] = (counts[v] || 0) + 1` keeps the first-assignment
  order of keys (an insertion-ordered association list);
* `Object.entries` does NOT enumerate purely in insertion order: own string
  keys that are canonical array indices (all digits, no leading zero except
  `"0"` itself, numeric value below `4294967295`) come first, in ascending
  numeric order, and only the remaining string keys follow in insertion
  order (ECMA-262 OrdinaryOwnPropertyKeys).

`Array.prototype.sort` is stable (ECMA-262); with the comparator
`([,a],[,b]) => b - a` it stably sorts by descending count.  We embed it as a
stable insertion sort with the same comparator. -/

/-- `counts[v] = (counts[v] || 0) + 1` on an insertion-ordered object. -/
def upsertCount : List (String × Nat) → String → List (String × Nat)
  | [], v => [(v, 1)]
  | (k, n) :: rest, v =>
    if k = v then (k, n + 1) :: rest else (k, n) :: upsertCount rest v

/-- Decimal value of an all-digit key (reads the characters left to right;
only used on all-digit strings). -/
def keyNum (s : String) : Nat :=
  s.data.foldl (fun n c => n * 10 + (c.toNat - Char.toNat '0')) 0

/-- Is the string a canonical array-index property key in the sense of
ECMA-262 (`"0"`, or digits with no leading zero, with value `< 2^32 - 1`)? -/
def canonIndexKey (s : String) : Bool :=
  match s.data with
  | [] => false
  | c :: cs =>
    (c :: cs).all (fun d => d.isDigit) && (c != '0' || cs.isEmpty) &&
      keyNum s < 4294967295

/-- Stable insertion step for ascending numeric key order. -/
def insertByNumAsc (x : String × Nat) : List (String × Nat) → List (String × Nat)
  | [] => [x]
  | y :: ys => if keyNum x.1 < keyNum y.1 then x :: y :: ys else y :: insertByNumAsc x ys

/-- Stable sort of array-index entries by ascending numeric key. -/
def sortByNumAsc (l : List (String × Nat)) : List (String × Nat) :=
  l.foldl (fun acc x => insertByNumAsc x acc) []

/-- `Object.entries(counts)`: array-index keys first in ascending numeric
order, then the remaining keys in insertion order. -/
def objectEntries (l : List (String × Nat)) : List (String × Nat) :=
  sortByNumAsc (l.filter (fun p => canonIndexKey p.1)) ++
    l.filter (fun p => !canonIndexKey p.1)

/-- Stable insertion step for descending count order (`([,a],[,b]) => b - a`). -/
def insertByCountDesc (x : String × Nat) : List (String × Nat) → List (String × Nat)
  | [] => [x]
  | y :: ys => if y.2 < x.2 then x :: y :: ys else y :: insertByCountDesc x ys

/-- The stable `Array.prototype.sort` with comparator `([,a],[,b]) => b - a`. -/
def sortByCountDesc (l : List (String × Nat)) : List (String × Nat) :=
  l.foldl (fun acc x => insertByCountDesc x acc) []

/-- `getMostUsed(phoneCallData)` (lines 379-389): count the values, then
`Object.entries(counts).sort(([,a],[,b]) => b - a).slice(0, 5)`.  We keep the
entries as pairs; the final `.map(([number, count]) => ({number, count}))`
only renames the two components. -/
def getMostUsed (phoneCallData : List UsageRecord) : List (String × Nat) :=
  let counts := phoneCallData.foldl (fun cs item => upsertCount cs item.value) []
  (sortByCountDesc (objectEntries counts)).take 5

/-- The stats object built by `getUsageStats`. -/
structure UsageStats where
  totalUsage : Nat
  phoneCallsCount : Nat
  resourceAccessCount : Nat
  mostUsedNumbers : List (String × Nat)
  recentActivity : List UsageRecord
  deriving DecidableEq, Repr

/-- `data.slice(-10)`: the last 10 elements. -/
def sliceLast10 (l : List UsageRecord) : List UsageRecord :=
  l.drop (l.length - 10)

/-- `getUsageStats()` (lines 359-374).  The body is wrapped in `try`/`catch`:
when `JSON.parse` throws on the stored content the function returns `null`,
embedded as `none`. -/
def getUsageStats (s : Stored) : Option UsageStats :=
  match s with
  | .corrupt => none
  | .good data =>
    some
      { totalUsage := data.length
        phoneCallsCount := (data.filter (fun item => item.type == "phone_call")).length
        resourceAccessCount := (data.filter (fun item => item.type == "resource_access")).length
        mostUsedNumbers := getMostUsed (data.filter (fun item => item.type == "phone_call"))
        recentActivity := (sliceLast10 data).reverse }

/-! ## Clipboard (`copyToClipboard`, `fallbackCopyToClipboard`)

The DOM side is embedded as the list of element identities attached to
`document.body` plus a fresh-identity counter; toast emission is recorded as a
list, and the number of attempted clipboard writes (`navigator.clipboard
.writeText`) and legacy copies (`document.execCommand('copy')`) is counted. -/

/-- One toast notification, by visual kind and message. -/
inductive Toast where
  | success (message : String)
  | error (message : String)
  deriving DecidableEq, Repr

/-- The part of the document the fallback path touches: the children of
`document.body` (by element identity) and a supply of fresh identities. -/
structure Dom where
  bodyChildren : List Nat
  nextId : Nat
  deriving DecidableEq, Repr

/-- Everything observable about one `copyToClipboard` call. -/
structure CopyOutcome where
  toasts : List Toast
  dom : Dom
  apiWrites : Nat
  execCopies : Nat
  deriving DecidableEq, Repr

/-- `fallbackCopyToClipboard(text)` (lines 103-132): create a hidden
`textarea`, append it to the body, run `document.execCommand('copy')` inside
`try { ... } catch { ... } finally { document.body.removeChild(textArea) }`.
`execResult` is the outcome of `execCommand`: returned `true`, returned
`false`, or threw. -/
def fallbackCopyToClipboard (text : String) (execResult : Except Unit Bool)
    (d : Dom) : CopyOutcome :=
  let textArea := d.nextId
  let d1 : Dom := { bodyChildren := d.bodyChildren ++ [textArea], nextId := d.nextId + 1 }
  let toasts :=
    match execResult with
    | .ok true => [Toast.success ("📋 Copied: " ++ text)]
    | .ok false => [Toast.error "❌ Copy failed - please try again"]
    | .error _ => [Toast.error "❌ Copy not supported"]
  let d2 : Dom := { d1 with bodyChildren := d1.bodyChildren.erase textArea }
  { toasts := toasts, dom := d2, apiWrites := 0, execCopies := 1 }

/-- `copyToClipboard(text)` (lines 79-98).  `text` is `none` for a missing
argument; JavaScript `!text` is true for both `undefined` and `''`.
`clipAvailable` is `navigator.clipboard && window.isSecureContext`;
`writeResult` is the outcome of `navigator.clipboard.writeText` (resolved or
rejected, the rejection being caught by the surrounding `try`/`catch` which
then runs the fallback). -/
def copyToClipboard (text : Option String) (clipAvailable : Bool)
    (writeResult : Except Unit Unit) (execResult : Except Unit Bool)
    (d : Dom) : CopyOutcome :=
  match text with
  | none =>
    { toasts := [Toast.error "❌ No phone number found"], dom := d,
      apiWrites := 0, execCopies := 0 }
  | some t =>
    if t = "" then
      { toasts := [Toast.error "❌ No phone number found"], dom := d,
        apiWrites := 0, execCopies := 0 }
    else if clipAvailable then
      match writeResult with
      | .ok _ =>
        { toasts := [Toast.success ("📋 Copied: " ++ t)], dom := d,
          apiWrites := 1, execCopies := 0 }
      | .error _ =>
        let o := fallbackCopyToClipboard t execResult d
        { o with apiWrites := o.apiWrites + 1 }
    else fallbackCopyToClipboard t execResult d

/-! ## Phone-number extraction (`extractPhoneNumber`)

The DOM context of the clicked copy button is embedded as: its optional
previous element sibling, the optional result of `closest('.phone-list')`
(with the two `querySelectorAll` results, copy buttons by identity), and the
optional `data-phone` attribute. -/

/-- A DOM element as far as extraction needs it: its class list and text. -/
structure Elem where
  classes : List String
  textContent : String
  deriving DecidableEq, Repr

/-- The result of `closest('.phone-list')`: the `.phone-btn` elements and the
identities of the `.copy-btn` elements inside it, in document order. -/
structure PhoneListCtx where
  phoneBtns : List Elem
  copyBtnIds : List Nat
  deriving DecidableEq, Repr

/-- The clicked copy button together with the DOM context `extractPhoneNumber`
inspects. -/
structure CopyBtnCtx where
  selfId : Nat
  prevSibling : Option Elem
  closestPhoneList : Option PhoneListCtx
  datasetPhone : Option String
  deriving DecidableEq, Repr

/-- `String.prototype.trim()`: strip whitespace from both ends (embedded as a
structurally recursive function so that it evaluates). -/
def jsTrim (s : String) : String :=
  String.mk (((s.data.dropWhile Char.isWhitespace).reverse.dropWhile Char.isWhitespace).reverse)

/-- `Array.prototype.indexOf`: first index of `x`, `-1` when absent. -/
def jsIndexOf (l : List Nat) (x : Nat) : Int :=
  match l.findIdx? (fun y => y == x) with
  | some i => (i : Int)
  | none => -1

/-- JavaScript indexing `l[i]`: `undefined` for a negative or out-of-range
index. -/
def jsGetElem (l : List Elem) (i : Int) : Option Elem :=
  if i < 0 then none else l.get? i.toNat

/-- Step (c) of `extractPhoneNumber`: `return copyButton.dataset.phone || null`
(an absent attribute and an empty one are both falsy, hence `null`). -/
def phoneFromDataset (b : CopyBtnCtx) : Option String :=
  match b.datasetPhone with
  | some s => if s = "" then none else some s
  | none => none

/-- Step (b) of `extractPhoneNumber`: positional pairing inside
`closest('.phone-list')`; falls through to the dataset fallback when the list
is absent or `phoneButtons[copyIndex]` is undefined. -/
def phoneFromList (b : CopyBtnCtx) : Option String :=
  match b.closestPhoneList with
  | some pl =>
    match jsGetElem pl.phoneBtns (jsIndexOf pl.copyBtnIds b.selfId) with
    | some pe => some (jsTrim pe.textContent)
    | none => phoneFromDataset b
  | none => phoneFromDataset b

/-- `extractPhoneNumber(copyButton)` (lines 53-74). -/
def extractPhoneNumber (b : CopyBtnCtx) : Option String :=
  match b.prevSibling with
  | some phoneButton =>
    if phoneButton.classes.contains "phone-btn" then
      some (jsTrim phoneButton.textContent)
    else phoneFromList b
  | none => phoneFromList b

/-! ## Toast widget (`showToast`) as a state machine

State: the toast element's message / class / display / animation, the
controller's single `toastTimeout` handle, the multiset of pending 3-second
auto-hide timers and of pending 300 ms display-none timers scheduled in the
environment, and a fresh-handle counter.  `clearTimeout` on a handle that
already fired is a no-op (`List.erase` of an absent element). -/

/-- Toast element + timer environment state. -/
structure ToastSt where
  message : String
  cssClass : String
  display : String
  animationStyle : String
  toastTimeout : Option Nat
  hideTimers : List Nat
  endTimers : List Nat
  nextId : Nat
  deriving DecidableEq, Repr

/-- `showToast(message, type)` (lines 137-161): clear any recorded pending
timeout, set message/class/display/animation, schedule a fresh 3-second
auto-hide timer and remember its handle. -/
def showToast (message type_ : String) (s : ToastSt) : ToastSt :=
  let s0 :=
    match s.toastTimeout with
    | some h => { s with hideTimers := s.hideTimers.erase h }
    | none => s
  { s0 with
    message := message
    cssClass := "toast toast--" ++ type_
    display := "block"
    animationStyle := "slideInRight 0.3s ease"
    toastTimeout := some s0.nextId
    hideTimers := s0.hideTimers ++ [s0.nextId]
    nextId := s0.nextId + 1 }

/-- The 3-second auto-hide timer with handle `h` fires: start the exit
animation and schedule the 300 ms timer that actually hides the element. -/
def fireHideTimer (h : Nat) (s : ToastSt) : ToastSt :=
  if h ∈ s.hideTimers then
    { s with
      hideTimers := s.hideTimers.erase h
      animationStyle := "slideOutRight 0.3s ease"
      endTimers := s.endTimers ++ [s.nextId]
      nextId := s.nextId + 1 }
  else s

/-- The nested 300 ms timer fires: `toast.style.display = 'none'`. -/
def fireEndTimer (h : Nat) (s : ToastSt) : ToastSt :=
  if h ∈ s.endTimers then
    { s with endTimers := s.endTimers.erase h, display := "none" }
  else s

/-- Events driving the toast widget. -/
inductive ToastEvent where
  | notify (message kind : String)
  | hideFires (h : Nat)
  | endFires (h : Nat)
  deriving DecidableEq, Repr

/-- One step of the toast state machine. -/
def toastStep (s : ToastSt) : ToastEvent → ToastSt
  | .notify m k => showToast m k s
  | .hideFires h => fireHideTimer h s
  | .endFires h => fireEndTimer h s

/-- Initial toast state: nothing shown, no pending timer ever scheduled. -/
def toastInit : ToastSt :=
  { message := "", cssClass := "", display := "", animationStyle := ""
    toastTimeout := none, hideTimers := [], endTimers := [], nextId := 0 }

/-- Run a sequence of toast events from the initial state; every reachable
state of the widget is `runToast evs` for some event list `evs`. -/
def runToast (evs : List ToastEvent) : ToastSt :=
  evs.foldl toastStep toastInit

/-! ## Auxiliary definitions used only by the proofs -/

/-- Did step (a) of `extractPhoneNumber` match (a previous sibling carrying
the `phone-btn` class)? -/
def siblingHit (b : CopyBtnCtx) : Bool :=
  match b.prevSibling with
  | some pb => pb.classes.contains "phone-btn"
  | none => false

/-- Invariant: every `phone_call` record in parseable stored content has a
value made only of digits and hyphens. -/
def phoneCleanInv (s : Stored) : Prop :=
  ∀ l, s = Stored.good l → ∀ r ∈ l, r.type = "phone_call" →
    r.value.data.all (fun c => c.isDigit || c = '-') = true

/-- Keys of a counts object, in property order. -/
def countsKeys (cs : List (String × Nat)) : List String :=
  cs.map Prod.fst

/-- Value stored under key `k` in a counts object. -/
def countsVal (k : String) : List (String × Nat) → Option Nat
  | [] => none
  | (k', n) :: rest => if k' = k then some n else countsVal k rest

/-- The keys a fold of `upsertCount` adds, in first-occurrence order, given
the keys already present (`seen`). -/
def newKeys : List String → List String → List String
  | _, [] => []
  | seen, v :: vs => if v ∈ seen then newKeys seen vs else v :: newKeys (v :: seen) vs

/-- Invariant for the toast widget: at most one auto-hide timer is pending,
any pending one is the one recorded in `toastTimeout`, and recorded handles
are in the past of the fresh-handle counter. -/
def ToastInv (s : ToastSt) : Prop :=
  s.hideTimers.length ≤ 1 ∧
    (∀ h ∈ s.hideTimers, s.toastTimeout = some h) ∧
    (∀ h, s.toastTimeout = some h → h < s.nextId)

/-! ## Lemmas about the persisted log -/

theorem length_sliceLast50 (l : List UsageRecord) :
    (sliceLast50 l).length = min l.length 50 := by
  simp only [sliceLast50, List.length_drop]
  omega

theorem sliceLast50_idem_append (l : List UsageRecord) (r : UsageRecord) :
    sliceLast50 (sliceLast50 l ++ [r]) = sliceLast50 (l ++ [r]) := by
  by_cases h : l.length ≤ 50
  · have h0 : l.length - 50 = 0 := by omega
    simp [sliceLast50, h0]
  · have h50 : 50 ≤ l.length := by omega
    have hlen : (l.drop (l.length - 50)).length = 50 := by
      simp only [List.length_drop]
      omega
    unfold sliceLast50
    rw [List.length_append, List.length_append, hlen]
    have e1 : (50 + [r].length) - 50 = 1 := by simp
    have e2 : (l.length + [r].length) - 50 = (l.length - 50 + 1) := by
      simp only [List.length_singleton]
      omega
    rw [e1, e2]
    rw [List.drop_append_of_le_length (by omega : 1 ≤ (l.drop (l.length - 50)).length),
      List.drop_append_of_le_length (by omega : l.length - 50 + 1 ≤ l.length)]
    rw [List.drop_drop]

theorem storeAll_good (recs : List UsageRecord) :
    storeAll recs (Stored.good []) = Stored.good (sliceLast50 recs) := by
  induction recs using List.reverseRecOn with
  | nil => rfl
  | append_singleton recs r ih =>
    unfold storeAll at ih ⊢
    rw [List.foldl_append, ih]
    show storeUsageData r.type r.value r.timestamp r.userAgent
      (Stored.good (sliceLast50 recs)) true = _
    simp only [storeUsageData, if_pos rfl]
    rw [sliceLast50_idem_append]
    rfl

/-- C1: starting from an empty persisted log, after any sequence of N tracked
events recorded via `storeUsageData`, the persisted log is exactly the most
recent `min(N, 50)` records in original insertion order (the suffix
`recs.drop (recs.length - 50)`, oldest first), its length equals
`min(N, 50)`, and after every intermediate write (every prefix of the
sequence) the length is at most 50. -/
theorem storeUsageData_log_bounded_and_recent (recs : List UsageRecord) :
    storeAll recs (Stored.good []) =
      Stored.good (recs.drop (recs.length - 50)) ∧
    (recs.drop (recs.length - 50)).length = min recs.length 50 ∧
    ∀ n : Nat,
      storeAll (recs.take n) (Stored.good []) =
        Stored.good ((recs.take n).drop ((recs.take n).length - 50)) ∧
      ((recs.take n).drop ((recs.take n).length - 50)).length ≤ 50 := by
  refine ⟨storeAll_good recs, length_sliceLast50 recs, fun n => ⟨storeAll_good _, ?_⟩⟩
  have h := length_sliceLast50 (recs.take n)
  simp only [sliceLast50] at h
  omega

/-- C9: `storeUsageData` never raises (it is a total function of the stored
content and the write outcome); for every input and storage outcome it either
appends the new record with oldest-first eviction, or leaves the persisted
content exactly unchanged. -/
theorem storeUsageData_append_or_noop (type value timestamp userAgent : String)
    (s : Stored) (writeOk : Bool) :
    (∃ l, s = Stored.good l ∧ writeOk = true ∧
      storeUsageData type value timestamp userAgent s writeOk =
        Stored.good (sliceLast50 (l ++
          [{ type := type, value := value, timestamp := timestamp,
             userAgent := userAgent }]))) ∨
    storeUsageData type value timestamp userAgent s writeOk = s := by
  cases s with
  | corrupt => right; rfl
  | good l =>
    cases writeOk with
    | true => left; exact ⟨l, rfl, rfl, rfl⟩
    | false => right; rfl

/-! ## Sanitization invariant (C10) -/

theorem cleanNumberOf_all_clean (s : String) :
    (cleanNumberOf s).data.all (fun c => c.isDigit || c = '-') = true := by
  rw [List.all_eq_true]
  intro c hc
  exact (List.mem_filter.mp hc).2

theorem storeUsageData_preserves_clean (type value timestamp userAgent : String)
    (s : Stored) (writeOk : Bool) (hs : phoneCleanInv s)
    (hv : type = "phone_call" →
      value.data.all (fun c => c.isDigit || c = '-') = true) :
    phoneCleanInv (storeUsageData type value timestamp userAgent s writeOk) := by
  cases s with
  | corrupt => exact hs
  | good l0 =>
    cases writeOk with
    | false => exact hs
    | true =>
      intro l hl r hr hty
      simp only [storeUsageData, if_true, Stored.good.injEq] at hl
      subst hl
      have hr2 : r ∈ l0 ++ [({ type := type, value := value, timestamp := timestamp, userAgent := userAgent } : UsageRecord)] :=
        List.drop_subset _ _ hr
      rcases List.mem_append.mp hr2 with hmem | hmem
      · exact hs l0 rfl r hmem hty
      · have hrec : r = { type := type, value := value, timestamp := timestamp, userAgent := userAgent } := by
          simpa using hmem
        subst hrec
        exact hv hty

theorem runUsageEvent_preserves_clean (s : Stored) (ev : UsageEvent)
    (hs : phoneCleanInv s) : phoneCleanInv (runUsageEvent s ev) := by
  cases ev with
  | phoneCall raw ts ua w =>
    exact storeUsageData_preserves_clean _ _ _ _ s w hs
      (fun _ => cleanNumberOf_all_clean raw)
  | resourceAccess url ts ua w =>
    refine storeUsageData_preserves_clean _ _ _ _ s w hs (fun h => ?_)
    exact absurd h (by decide)

theorem runUsageEvents_preserve_clean (evs : List UsageEvent) (s : Stored)
    (hs : phoneCleanInv s) : phoneCleanInv (runUsageEvents evs s) := by
  induction evs generalizing s with
  | nil => exact hs
  | cons e evs ih => exact ih _ (runUsageEvent_preserves_clean s e hs)

/-- C10: in every persisted log reachable from the empty log via the tracking
entry points, every `phone_call` record's value consists only of decimal
digits and hyphens, because `trackPhoneCall` sanitizes with
`replace(/[^\d-]/g, '')` before storing. -/
theorem trackPhoneCall_values_sanitized (evs : List UsageEvent)
    (l : List UsageRecord)
    (h : runUsageEvents evs (Stored.good []) = Stored.good l) :
    ∀ r ∈ l, r.type = "phone_call" →
      r.value.data.all (fun c => c.isDigit || c = '-') = true := by
  have hinv : phoneCleanInv (runUsageEvents evs (Stored.good [])) := by
    refine runUsageEvents_preserve_clean evs _ ?_
    intro l0 h0 r hr _
    cases h0
    cases hr
  exact hinv l h

/-- Witness for C10: a concrete run where the clicked control's text
`"Call 100 now!"` is stored as the sanitized value `"100"`. -/
theorem trackPhoneCall_values_sanitized_witness :
    ({ type := "phone_call", value := "100", timestamp := "t",
       userAgent := "ua" } : UsageRecord).value.data.all
      (fun c => c.isDigit || c = '-') = true :=
  trackPhoneCall_values_sanitized
    [UsageEvent.phoneCall "Call 100 now!" "t" "ua" true]
    [{ type := "phone_call", value := "100", timestamp := "t", userAgent := "ua" }]
    (by decide) _ (by decide) (by decide)

/-! ## Stats on empty and malformed content (C3) -/

/-- C3 counterexample: on malformed (unparseable) stored content
`getUsageStats` does not return the empty/default result structure — it
returns `null` (embedded as `none`), because the `catch` block ends with
`return null`. -/
theorem getUsageStats_corrupt_not_default_cex :
    getUsageStats Stored.corrupt = none ∧
    getUsageStats Stored.corrupt ≠
      some { totalUsage := 0, phoneCallsCount := 0, resourceAccessCount := 0, mostUsedNumbers := [], recentActivity := [] } := by
  exact ⟨rfl, by simp [getUsageStats]⟩

/-- C3 amended: on an empty stored log `getUsageStats` returns the stats
object with zero counts and empty derived lists; on malformed stored content
it never raises, but it returns `null` (`none`) rather than that
empty/default structure. -/
theorem getUsageStats_empty_zero_corrupt_null :
    getUsageStats (Stored.good []) =
      some { totalUsage := 0, phoneCallsCount := 0, resourceAccessCount := 0, mostUsedNumbers := [], recentActivity := [] } ∧
    getUsageStats Stored.corrupt = none :=
  ⟨rfl, rfl⟩

/-! ## Clipboard (C4, C7, C8) -/

/-- C7: an empty or missing input short-circuits `copyToClipboard` to a
single failure toast: the DOM is untouched (in particular no transient
element is created), and neither the secure clipboard API nor the legacy
`execCommand` copy is attempted. -/
theorem copyToClipboard_falsy_short_circuit (text : Option String)
    (clipAvailable : Bool) (writeResult : Except Unit Unit)
    (execResult : Except Unit Bool) (d : Dom)
    (h : text = none ∨ text = some "") :
    copyToClipboard text clipAvailable writeResult execResult d =
      { toasts := [Toast.error "❌ No phone number found"], dom := d, apiWrites := 0, execCopies := 0 } := by
  rcases h with rfl | rfl
  · rfl
  · simp [copyToClipboard]

/-- Witness for C7 at the concrete input `''`. -/
theorem copyToClipboard_falsy_short_circuit_witness :
    copyToClipboard (some "") true (.ok ()) (.ok true) { bodyChildren := [3], nextId := 7 } =
      { toasts := [Toast.error "❌ No phone number found"], dom := { bodyChildren := [3], nextId := 7 }, apiWrites := 0, execCopies := 0 } :=
  copyToClipboard_falsy_short_circuit (some "") true (.ok ()) (.ok true) _ (Or.inr rfl)

/-- C8: the legacy fallback removes its transient hidden textarea on every
exit path (`execCommand` returning `true`, returning `false`, or throwing):
afterwards the body's children are exactly what they were before the call,
and the transient element (the fresh identity `d.nextId`) is not attached. -/
theorem fallbackCopy_removes_textarea (text : String)
    (execResult : Except Unit Bool) (d : Dom)
    (hfresh : ∀ c ∈ d.bodyChildren, c < d.nextId) :
    (fallbackCopyToClipboard text execResult d).dom.bodyChildren = d.bodyChildren ∧
    d.nextId ∉ (fallbackCopyToClipboard text execResult d).dom.bodyChildren := by
  have hnot : d.nextId ∉ d.bodyChildren := by
    intro hm
    exact absurd (hfresh _ hm) (lt_irrefl _)
  have herase : (d.bodyChildren ++ [d.nextId]).erase d.nextId = d.bodyChildren := by
    rw [List.erase_append_right _ hnot, List.erase_cons_head, List.append_nil]
  have hdom : (fallbackCopyToClipboard text execResult d).dom.bodyChildren = d.bodyChildren := by
    simp only [fallbackCopyToClipboard]
    exact herase
  exact ⟨hdom, hdom ▸ hnot⟩

/-- Witness for C8 with a throwing `execCommand` and a non-empty body. -/
theorem fallbackCopy_removes_textarea_witness :
    (fallbackCopyToClipboard "100" (.error ()) { bodyChildren := [0, 1], nextId := 2 }).dom.bodyChildren = [0, 1] ∧
    (2 : Nat) ∉ (fallbackCopyToClipboard "100" (.error ()) { bodyChildren := [0, 1], nextId := 2 }).dom.bodyChildren :=
  fallbackCopy_removes_textarea "100" (.error ()) _ (by decide)

/-- C4: for every non-empty input string, `copyToClipboard` emits exactly one
toast — a single success or a single failure notification — across every
combination of secure-API availability, secure-write outcome and legacy
`execCommand` outcome. -/
theorem copyToClipboard_exactly_one_toast (t : String) (clipAvailable : Bool)
    (writeResult : Except Unit Unit) (execResult : Except Unit Bool) (d : Dom)
    (h : t ≠ "") :
    (copyToClipboard (some t) clipAvailable writeResult execResult d).toasts.length = 1 ∧
    (∃ m, (copyToClipboard (some t) clipAvailable writeResult execResult d).toasts = [Toast.success m] ∨
      (copyToClipboard (some t) clipAvailable writeResult execResult d).toasts = [Toast.error m]) := by
  cases clipAvailable with
  | false =>
    rcases execResult with e | b
    · exact ⟨by simp [copyToClipboard, fallbackCopyToClipboard, h],
        ⟨"❌ Copy not supported", by simp [copyToClipboard, fallbackCopyToClipboard, h]⟩⟩
    · cases b
      · exact ⟨by simp [copyToClipboard, fallbackCopyToClipboard, h],
          ⟨"❌ Copy failed - please try again", by simp [copyToClipboard, fallbackCopyToClipboard, h]⟩⟩
      · exact ⟨by simp [copyToClipboard, fallbackCopyToClipboard, h],
          ⟨"📋 Copied: " ++ t, by simp [copyToClipboard, fallbackCopyToClipboard, h]⟩⟩
  | true =>
    rcases writeResult with we | wv
    · rcases execResult with e | b
      · exact ⟨by simp [copyToClipboard, fallbackCopyToClipboard, h],
          ⟨"❌ Copy not supported", by simp [copyToClipboard, fallbackCopyToClipboard, h]⟩⟩
      · cases b
        · exact ⟨by simp [copyToClipboard, fallbackCopyToClipboard, h],
            ⟨"❌ Copy failed - please try again", by simp [copyToClipboard, fallbackCopyToClipboard, h]⟩⟩
        · exact ⟨by simp [copyToClipboard, fallbackCopyToClipboard, h],
            ⟨"📋 Copied: " ++ t, by simp [copyToClipboard, fallbackCopyToClipboard, h]⟩⟩
    · exact ⟨by simp [copyToClipboard, h],
        ⟨"📋 Copied: " ++ t, by simp [copyToClipboard, h]⟩⟩

/-- Witness for C4: primary path fails, fallback `execCommand` returns
`false`, and exactly one (failure) toast is emitted. -/
theorem copyToClipboard_exactly_one_toast_witness :
    (copyToClipboard (some "100") true (.error ()) (.ok false) { bodyChildren := [], nextId := 0 }).toasts.length = 1 ∧
    (∃ m, (copyToClipboard (some "100") true (.error ()) (.ok false) { bodyChildren := [], nextId := 0 }).toasts = [Toast.success m] ∨
      (copyToClipboard (some "100") true (.error ()) (.ok false) { bodyChildren := [], nextId := 0 }).toasts = [Toast.error m]) :=
  copyToClipboard_exactly_one_toast "100" true (.error ()) (.ok false) _ (by decide)

/-! ## Phone-number extraction priority (C5) -/

theorem extract_no_sibling (b : CopyBtnCtx) (h : siblingHit b = false) :
    extractPhoneNumber b = phoneFromList b := by
  have h' := h
  unfold siblingHit at h'
  unfold extractPhoneNumber
  cases hp : b.prevSibling with
  | none => rfl
  | some pb =>
    rw [hp] at h'
    have h'' : pb.classes.contains "phone-btn" = false := h'
    simp only [h'', Bool.false_eq_true, if_false]

/-- C5: `extractPhoneNumber` tries, in this exact order: (a) the immediately
preceding sibling element when it carries the `phone-btn` class, returning
its trimmed text; (b) positional pairing inside `closest('.phone-list')`,
returning the trimmed text of the phone control at the copy control's index
among copy controls; (c) the `data-phone` attribute when present and
non-empty; and `null` when none applies. -/
theorem extractPhoneNumber_priority (b : CopyBtnCtx) :
    (∀ pb, b.prevSibling = some pb → pb.classes.contains "phone-btn" = true →
      extractPhoneNumber b = some (jsTrim pb.textContent)) ∧
    (siblingHit b = false → ∀ pl pe, b.closestPhoneList = some pl →
      jsGetElem pl.phoneBtns (jsIndexOf pl.copyBtnIds b.selfId) = some pe →
      extractPhoneNumber b = some (jsTrim pe.textContent)) ∧
    (siblingHit b = false →
      (∀ pl, b.closestPhoneList = some pl →
        jsGetElem pl.phoneBtns (jsIndexOf pl.copyBtnIds b.selfId) = none) →
      ∀ s, b.datasetPhone = some s → s ≠ "" → extractPhoneNumber b = some s) ∧
    (siblingHit b = false →
      (∀ pl, b.closestPhoneList = some pl →
        jsGetElem pl.phoneBtns (jsIndexOf pl.copyBtnIds b.selfId) = none) →
      (b.datasetPhone = none ∨ b.datasetPhone = some "") →
      extractPhoneNumber b = none) := by
  refine ⟨?_, ?_, ?_, ?_⟩
  · intro pb hp hc
    unfold extractPhoneNumber
    rw [hp]
    simp only [hc, if_true]
  · intro hsib pl pe hpl hpe
    rw [extract_no_sibling b hsib]
    simp only [phoneFromList, hpl, hpe]
  · intro hsib hmiss s hds hs
    rw [extract_no_sibling b hsib]
    cases hpl : b.closestPhoneList with
    | none => simp [phoneFromList, hpl, phoneFromDataset, hds, hs]
    | some pl => simp [phoneFromList, hpl, hmiss pl hpl, phoneFromDataset, hds, hs]
  · intro hsib hmiss hds
    rcases hds with hd | hd <;>
      rw [extract_no_sibling b hsib] <;>
      cases hpl : b.closestPhoneList with
      | none => simp [phoneFromList, hpl, phoneFromDataset, hd]
      | some pl => simp [phoneFromList, hpl, hmiss pl hpl, phoneFromDataset, hd]

/-- Witness for C5: a previous-sibling phone control with text `" 100 "`
yields `"100"`, and a copy control that is second among three pairs in a
`.phone-list` yields the second phone control's text. -/
theorem extractPhoneNumber_priority_witness :
    extractPhoneNumber { selfId := 5, prevSibling := some { classes := ["phone-btn"], textContent := " 100 " }, closestPhoneList := none, datasetPhone := none } = some "100" ∧
    extractPhoneNumber { selfId := 11, prevSibling := none, closestPhoneList := some { phoneBtns := [{ classes := ["phone-btn"], textContent := "100" }, { classes := ["phone-btn"], textContent := "101" }, { classes := ["phone-btn"], textContent := "102" }], copyBtnIds := [10, 11, 12] }, datasetPhone := none } = some "101" := by
  constructor
  · have h := (extractPhoneNumber_priority { selfId := 5, prevSibling := some { classes := ["phone-btn"], textContent := " 100 " }, closestPhoneList := none, datasetPhone := none }).1 { classes := ["phone-btn"], textContent := " 100 " } rfl (by decide)
    exact h.trans (by decide)
  · have h := (extractPhoneNumber_priority { selfId := 11, prevSibling := none, closestPhoneList := some { phoneBtns := [{ classes := ["phone-btn"], textContent := "100" }, { classes := ["phone-btn"], textContent := "101" }, { classes := ["phone-btn"], textContent := "102" }], copyBtnIds := [10, 11, 12] }, datasetPhone := none }).2.1 (by decide) { phoneBtns := [{ classes := ["phone-btn"], textContent := "100" }, { classes := ["phone-btn"], textContent := "101" }, { classes := ["phone-btn"], textContent := "102" }], copyBtnIds := [10, 11, 12] } { classes := ["phone-btn"], textContent := "101" } rfl (by decide)
    exact h.trans (by decide)

/-! ## Toast widget timers (C6) -/

theorem toastInv_init : ToastInv toastInit := by
  refine ⟨by simp [toastInit], ?_, ?_⟩ <;> simp [toastInit]

theorem showToast_of_inv (m k : String) (s : ToastSt) (hs : ToastInv s) :
    showToast m k s =
      { message := m, cssClass := "toast toast--" ++ k, display := "block", animationStyle := "slideInRight 0.3s ease", toastTimeout := some s.nextId, hideTimers := [s.nextId], endTimers := s.endTimers, nextId := s.nextId + 1 } := by
  obtain ⟨hlen, hmem, _⟩ := hs
  unfold showToast
  cases ht : s.toastTimeout with
  | none =>
    have hnil : s.hideTimers = [] := by
      cases hh : s.hideTimers with
      | nil => rfl
      | cons a t =>
        have ha := hmem a (by rw [hh]; exact List.mem_cons_self a t)
        rw [ht] at ha
        cases ha
    simp [hnil]
  | some h0 =>
    have herase : s.hideTimers.erase h0 = [] := by
      cases hh : s.hideTimers with
      | nil => rfl
      | cons a t =>
        have ha := hmem a (by rw [hh]; exact List.mem_cons_self a t)
        rw [ht] at ha
        injection ha with ha'
        cases t with
        | nil => rw [ha', List.erase_cons_head]
        | cons b t2 =>
          rw [hh] at hlen
          simp at hlen
    simp [herase]

theorem toastStep_inv (s : ToastSt) (e : ToastEvent) (hs : ToastInv s) :
    ToastInv (toastStep s e) := by
  obtain ⟨hlen, hmem, hfresh⟩ := hs
  cases e with
  | notify m k =>
    rw [show toastStep s (.notify m k) = showToast m k s from rfl,
      showToast_of_inv m k s ⟨hlen, hmem, hfresh⟩]
    refine ⟨by simp, ?_, ?_⟩
    · intro h hh
      simp at hh
      simp [hh]
    · intro h hh
      simp at hh ⊢
      omega
  | hideFires h =>
    show ToastInv (fireHideTimer h s)
    unfold fireHideTimer
    by_cases hin : h ∈ s.hideTimers
    · simp only [hin, if_true]
      refine ⟨?_, ?_, ?_⟩
      · exact le_trans ((List.erase_sublist h s.hideTimers).length_le) hlen
      · intro h' hh'
        exact hmem h' (List.mem_of_mem_erase hh')
      · intro h' hh'
        exact Nat.lt_succ_of_lt (hfresh h' hh')
    · simp only [hin, if_false]
      exact ⟨hlen, hmem, hfresh⟩
  | endFires h =>
    show ToastInv (fireEndTimer h s)
    unfold fireEndTimer
    by_cases hin : h ∈ s.endTimers
    · simp only [hin, if_true]
      exact ⟨hlen, hmem, hfresh⟩
    · simp only [hin, if_false]
      exact ⟨hlen, hmem, hfresh⟩

theorem toastInv_run (evs : List ToastEvent) : ToastInv (runToast evs) := by
  suffices h : ∀ l s, ToastInv s → ToastInv (List.foldl toastStep s l) from
    h evs toastInit toastInv_init
  intro l
  induction l with
  | nil => exact fun s hs => hs
  | cons e l ih =>
    intro s hs
    exact ih _ (toastStep_inv s e hs)

/-- C6: in every reachable state of the notification widget at most one
auto-hide timer is pending; and when a second notification is requested
before the first one's 3-second timer fires, the first notification's timer
(handle `(runToast evs).nextId`) is cancelled, only the second message is
shown, and exactly one hide-timer (the second notification's) remains
pending. -/
theorem showToast_single_pending_timer (evs : List ToastEvent) (m1 k1 m2 k2 : String) :
    (runToast evs).hideTimers.length ≤ 1 ∧
    (showToast m1 k1 (runToast evs)).toastTimeout = some (runToast evs).nextId ∧
    (showToast m2 k2 (showToast m1 k1 (runToast evs))).message = m2 ∧
    (showToast m2 k2 (showToast m1 k1 (runToast evs))).display = "block" ∧
    (showToast m2 k2 (showToast m1 k1 (runToast evs))).hideTimers = [(runToast evs).nextId + 1] ∧
    (runToast evs).nextId ∉ (showToast m2 k2 (showToast m1 k1 (runToast evs))).hideTimers := by
  have hinv := toastInv_run evs
  have h1 := showToast_of_inv m1 k1 _ hinv
  have hinv1 : ToastInv (showToast m1 k1 (runToast evs)) :=
    toastStep_inv _ (.notify m1 k1) hinv
  have h2 := showToast_of_inv m2 k2 _ hinv1
  rw [h1] at h2
  refine ⟨hinv.1, by rw [h1], ?_, ?_, ?_, ?_⟩ <;> simp [h1, h2]

/-! ## Top-5 ranking and tie order (C2)

`Object.entries` enumerates canonical array-index keys (which every plain
digit string like `"100"` is) in ascending numeric order before the remaining
keys in insertion order, so for digit-only phone values the tie order is NOT
first-encountered order.  The counterexample below exhibits this; the general
theorem then establishes first-encountered tie order for values that are not
array-index keys. -/

/-- C2 counterexample: value `"102"` is recorded (3 times) before `"100"`
(3 times), `"7"` once, yet `getMostUsed` returns `"100"` before `"102"`,
because `Object.entries` reorders the digit-only keys numerically before the
stable sort by count runs. -/
theorem getMostUsed_digit_tie_order_cex :
    getMostUsed [{ type := "phone_call", value := "102", timestamp := "t1", userAgent := "u" }, { type := "phone_call", value := "102", timestamp := "t2", userAgent := "u" }, { type := "phone_call", value := "102", timestamp := "t3", userAgent := "u" }, { type := "phone_call", value := "100", timestamp := "t4", userAgent := "u" }, { type := "phone_call", value := "100", timestamp := "t5", userAgent := "u" }, { type := "phone_call", value := "100", timestamp := "t6", userAgent := "u" }, { type := "phone_call", value := "7", timestamp := "t7", userAgent := "u" }] = [("100", 3), ("102", 3), ("7", 1)] ∧
    ([("100", 3), ("102", 3), ("7", 1)] : List (String × Nat)) ≠ [("102", 3), ("100", 3), ("7", 1)] :=
  ⟨by decide, by decide⟩

theorem countsKeys_upsertCount (cs : List (String × Nat)) (v : String) :
    countsKeys (upsertCount cs v) =
      if v ∈ countsKeys cs then countsKeys cs else countsKeys cs ++ [v] := by
  induction cs with
  | nil => simp [countsKeys, upsertCount]
  | cons p rest ih =>
    obtain ⟨k, n⟩ := p
    by_cases hkv : k = v
    · subst hkv
      simp [countsKeys, upsertCount]
    · simp only [upsertCount, if_neg hkv, countsKeys, List.map_cons] at ih ⊢
      rw [ih]
      by_cases hv : v ∈ List.map Prod.fst rest
      · simp [hv]
      · simp [hv, Ne.symm hkv]

theorem newKeys_congr (l : List String) : ∀ s1 s2 : List String,
    (∀ x, x ∈ s1 ↔ x ∈ s2) → newKeys s1 l = newKeys s2 l := by
  induction l with
  | nil => intro s1 s2 _; rfl
  | cons v vs ih =>
    intro s1 s2 h
    by_cases hv : v ∈ s1
    · rw [newKeys, newKeys, if_pos hv, if_pos ((h v).mp hv)]
      exact ih s1 s2 h
    · rw [newKeys, newKeys, if_neg hv, if_neg (fun hc => hv ((h v).mpr hc))]
      refine congrArg (v :: ·) (ih _ _ fun x => ?_)
      simp [h x]

theorem countsKeys_foldl (vals : List String) : ∀ cs : List (String × Nat),
    countsKeys (vals.foldl upsertCount cs) =
      countsKeys cs ++ newKeys (countsKeys cs) vals := by
  induction vals with
  | nil => intro cs; simp [newKeys]
  | cons v vs ih =>
    intro cs
    rw [List.foldl_cons, ih (upsertCount cs v), countsKeys_upsertCount]
    by_cases hv : v ∈ countsKeys cs
    · rw [if_pos hv, newKeys, if_pos hv]
    · rw [if_neg hv, newKeys, if_neg hv, List.append_assoc]
      refine congrArg (countsKeys cs ++ ·) ?_
      rw [newKeys_congr vs (countsKeys cs ++ [v]) (v :: countsKeys cs) (fun x => by simp [or_comm])]
      rfl

theorem mem_newKeys (x : String) (l : List String) : ∀ seen : List String,
    (x ∈ newKeys seen l ↔ x ∈ l ∧ x ∉ seen) := by
  induction l with
  | nil => intro seen; simp [newKeys]
  | cons v vs ih =>
    intro seen
    by_cases hv : v ∈ seen
    · rw [newKeys, if_pos hv, ih seen]
      constructor
      · exact fun ⟨h1, h2⟩ => ⟨List.mem_cons_of_mem v h1, h2⟩
      · rintro ⟨h1, h2⟩
        rcases List.mem_cons.mp h1 with rfl | h1'
        · exact absurd hv h2
        · exact ⟨h1', h2⟩
    · rw [newKeys, if_neg hv]
      by_cases hxv : x = v
      · subst hxv
        simp [hv]
      · rw [List.mem_cons, or_iff_right hxv, ih (v :: seen)]
        simp [hxv, List.mem_cons]

theorem nodup_newKeys (l : List String) : ∀ seen : List String,
    (newKeys seen l).Nodup := by
  induction l with
  | nil => intro seen; simp [newKeys]
  | cons v vs ih =>
    intro seen
    by_cases hv : v ∈ seen
    · rw [newKeys, if_pos hv]
      exact ih seen
    · rw [newKeys, if_neg hv, List.nodup_cons]
      refine ⟨fun hc => ?_, ih (v :: seen)⟩
      exact ((mem_newKeys v vs (v :: seen)).mp hc).2 (List.mem_cons_self v seen)

theorem newKeys_pair_sublist (A B : String) (l : List String) : ∀ seen : List String,
    A ≠ B → A ∈ l → B ∈ l → A ∉ seen → B ∉ seen →
    l.indexOf A < l.indexOf B → [A, B].Sublist (newKeys seen l) := by
  induction l with
  | nil => intro seen _ hA _ _ _ _; cases hA
  | cons v vs ih =>
    intro seen hAB hA hB hsA hsB hidx
    by_cases hvA : v = A
    · subst hvA
      rw [newKeys, if_neg hsA]
      have hBvs : B ∈ vs := by
        rcases List.mem_cons.mp hB with rfl | h
        · exact absurd rfl (Ne.symm hAB)
        · exact h
      have hBseen : B ∉ v :: seen := by
        simp only [List.mem_cons]
        rintro (rfl | h)
        · exact hAB rfl
        · exact hsB h
      exact List.Sublist.cons₂ v
        (List.singleton_sublist.mpr ((mem_newKeys B vs (v :: seen)).mpr ⟨hBvs, hBseen⟩))
    · by_cases hvB : v = B
      · subst hvB
        rw [List.indexOf_cons_self] at hidx
        exact absurd hidx (Nat.not_lt_zero _)
      · have hAvs : A ∈ vs := by
          rcases List.mem_cons.mp hA with rfl | h
          · exact absurd rfl hvA
          · exact h
        have hBvs : B ∈ vs := by
          rcases List.mem_cons.mp hB with rfl | h
          · exact absurd rfl hvB
          · exact h
        have hidx' : vs.indexOf A < vs.indexOf B := by
          rw [List.indexOf_cons_ne _ hvA, List.indexOf_cons_ne _ hvB] at hidx
          omega
        by_cases hvs : v ∈ seen
        · rw [newKeys, if_pos hvs]
          exact ih seen hAB hAvs hBvs hsA hsB hidx'
        · rw [newKeys, if_neg hvs]
          refine List.Sublist.cons v (ih (v :: seen) hAB hAvs hBvs ?_ ?_ hidx')
          · simp only [List.mem_cons]
            rintro (rfl | h)
            · exact hvA rfl
            · exact hsA h
          · simp only [List.mem_cons]
            rintro (rfl | h)
            · exact hvB rfl
            · exact hsB h

theorem countsVal_upsertCount (cs : List (String × Nat)) (v k : String) :
    countsVal k (upsertCount cs v) =
      if k = v then some ((countsVal k cs).getD 0 + 1) else countsVal k cs := by
  induction cs with
  | nil =>
    by_cases hkv : k = v
    · subst hkv
      simp [countsVal, upsertCount]
    · simp [countsVal, upsertCount, hkv, Ne.symm hkv]
  | cons p rest ih =>
    obtain ⟨k', n⟩ := p
    by_cases h1 : k' = v
    · subst h1
      by_cases h2 : k = k'
      · subst h2
        simp [countsVal, upsertCount]
      · simp [countsVal, upsertCount, h2, Ne.symm h2]
    · by_cases h2 : k' = k
      · subst h2
        have hkv : ¬(k' = v) := h1
        simp [countsVal, upsertCount, h1, hkv]
      · simp [countsVal, upsertCount, h1, h2, ih]

theorem countsVal_foldl (vals : List String) (k : String) : ∀ cs : List (String × Nat),
    countsVal k (vals.foldl upsertCount cs) =
      match countsVal k cs with
      | some n => some (n + vals.count k)
      | none => if k ∈ vals then some (vals.count k) else none := by
  induction vals with
  | nil =>
    intro cs
    cases h : countsVal k cs <;> simp [h]
  | cons v vs ih =>
    intro cs
    rw [List.foldl_cons, ih (upsertCount cs v), countsVal_upsertCount]
    by_cases hkv : k = v
    · subst hkv
      cases h : countsVal k cs with
      | none =>
        simp [h, List.count_cons]
        omega
      | some n =>
        simp only [h, if_pos rfl, Option.getD_some, List.count_cons, beq_self_eq_true,
          if_true, List.mem_cons, true_or, if_pos]
        exact congrArg some (by omega)
    · cases h : countsVal k cs with
      | none =>
        simp only [h, if_neg hkv, List.count_cons, List.mem_cons]
        have hbeq : (v == k) = false := by
          simp [Ne.symm hkv]
        simp [hbeq, hkv]
      | some n =>
        simp only [h, if_neg hkv, List.count_cons]
        have hbeq : (v == k) = false := by
          simp [Ne.symm hkv]
        simp [hbeq]

theorem counts_eq_map_keys (cs : List (String × Nat)) (h : (countsKeys cs).Nodup) :
    cs = (countsKeys cs).map (fun k => (k, (countsVal k cs).getD 0)) := by
  induction cs with
  | nil => rfl
  | cons p rest ih =>
    obtain ⟨k, n⟩ := p
    simp only [countsKeys, List.map_cons] at h ⊢
    rw [List.nodup_cons] at h
    obtain ⟨hk, hrest⟩ := h
    have hhead : countsVal k ((k, n) :: rest) = some n := by
      simp [countsVal]
    rw [hhead]
    refine congrArg ((k, n) :: ·) ?_
    have hcongr : ∀ k' ∈ List.map Prod.fst rest,
        (k', (countsVal k' ((k, n) :: rest)).getD 0) = (k', (countsVal k' rest).getD 0) := by
      intro k' hk'
      have hne : k ≠ k' := fun hc => hk (hc ▸ hk')
      simp [countsVal, hne]
    rw [List.map_congr_left hcongr]
    exact ih hrest

theorem sublist_pair_indexOf_lt (K : List String) (a b : String) (hab : a ≠ b)
    (hnd : K.Nodup) (hsub : [a, b].Sublist K) : K.indexOf a < K.indexOf b := by
  induction K with
  | nil => cases hsub
  | cons v rest ih =>
    rw [List.nodup_cons] at hnd
    obtain ⟨hv, hrest⟩ := hnd
    cases hsub with
    | cons _ htail =>
      have hamem : a ∈ rest := htail.subset (List.mem_cons_self a [b])
      have hbmem : b ∈ rest := htail.subset (List.mem_cons_of_mem a (List.mem_cons_self b []))
      have hva : v ≠ a := fun hc => hv (hc ▸ hamem)
      have hvb : v ≠ b := fun hc => hv (hc ▸ hbmem)
      rw [List.indexOf_cons_ne _ hva, List.indexOf_cons_ne _ hvb]
      exact Nat.succ_lt_succ (ih hrest htail)
    | cons₂ _ htail =>
      rw [List.indexOf_cons_self, List.indexOf_cons_ne _ hab]
      exact Nat.succ_pos _

theorem keys_three_perm (K : List String) (A B C : String)
    (hnd : K.Nodup) (hmem : ∀ x, x ∈ K ↔ x = A ∨ x = B ∨ x = C)
    (hAB : A ≠ B) (hAC : A ≠ C) (hBC : B ≠ C)
    (hsub : [A, B].Sublist K) :
    K = [A, B, C] ∨ K = [A, C, B] ∨ K = [C, A, B] := by
  have hBA : B ≠ A := Ne.symm hAB
  have hCA : C ≠ A := Ne.symm hAC
  have hCB : C ≠ B := Ne.symm hBC
  have hlen : K.length = 3 := by
    have hfin : K.toFinset = {A, B, C} := by
      ext x
      simp [List.mem_toFinset, hmem x]
    have hcard : K.toFinset.card = 3 := by
      rw [hfin, Finset.card_insert_of_not_mem (by simp [hAB, hAC]),
        Finset.card_insert_of_not_mem (by simp [hBC]), Finset.card_singleton]
    rw [← List.toFinset_card_of_nodup hnd, hcard]
  have hord := sublist_pair_indexOf_lt K A B hAB hnd hsub
  obtain ⟨x, y, z, rfl⟩ := List.length_eq_three.mp hlen
  have hx := (hmem x).mp (by simp)
  have hy := (hmem y).mp (by simp)
  have hz := (hmem z).mp (by simp)
  have hA := (hmem A).mpr (Or.inl rfl)
  have hB := (hmem B).mpr (Or.inr (Or.inl rfl))
  have hC := (hmem C).mpr (Or.inr (Or.inr rfl))
  rcases hx with rfl | rfl | rfl <;> rcases hy with rfl | rfl | rfl <;>
    rcases hz with rfl | rfl | rfl <;>
    simp_all [List.indexOf_cons_self, List.indexOf_cons_ne]

/-- C2 amended: the top-5 frequency ranking is stable with ties broken by
first-encountered order for value strings that are NOT canonical array-index
keys (digit-only strings like `"100"`): for any stored log whose `phone_call`
values are a non-index `A` (3 times), a non-index `B` (3 times) and a third
value `C` (once), with `A`'s first record preceding `B`'s, `getMostUsed`
returns `[A, B, C]`.  For digit-only (array-index) values the tie order is
instead the ascending numeric key order imposed by `Object.entries`. -/
theorem getMostUsed_tie_first_encountered (A B C : String) (recs : List UsageRecord)
    (hAB : A ≠ B) (hAC : A ≠ C) (hBC : B ≠ C)
    (hvals : ∀ r ∈ recs, r.value = A ∨ r.value = B ∨ r.value = C)
    (hcA : (recs.map (fun r => r.value)).count A = 3)
    (hcB : (recs.map (fun r => r.value)).count B = 3)
    (hcC : (recs.map (fun r => r.value)).count C = 1)
    (hord : (recs.map (fun r => r.value)).indexOf A <
      (recs.map (fun r => r.value)).indexOf B)
    (hiA : canonIndexKey A = false) (hiB : canonIndexKey B = false) :
    getMostUsed recs = [(A, 3), (B, 3), (C, 1)] := by
  have hfold : recs.foldl (fun cs item => upsertCount cs item.value) [] =
      (recs.map (fun r => r.value)).foldl upsertCount [] :=
    (List.foldl_map _ _ _ _).symm
  have hAmem : A ∈ recs.map (fun r => r.value) :=
    List.count_pos_iff.mp (by rw [hcA]; norm_num)
  have hBmem : B ∈ recs.map (fun r => r.value) :=
    List.count_pos_iff.mp (by rw [hcB]; norm_num)
  have hCmem : C ∈ recs.map (fun r => r.value) :=
    List.count_pos_iff.mp (by rw [hcC]; norm_num)
  have hkeys : countsKeys ((recs.map (fun r => r.value)).foldl upsertCount []) =
      newKeys [] (recs.map (fun r => r.value)) := by
    rw [countsKeys_foldl]
    rfl
  have hnd : (countsKeys ((recs.map (fun r => r.value)).foldl upsertCount [])).Nodup := by
    rw [hkeys]
    exact nodup_newKeys _ []
  have hmemK : ∀ x, x ∈ countsKeys ((recs.map (fun r => r.value)).foldl upsertCount []) ↔
      x = A ∨ x = B ∨ x = C := by
    intro x
    rw [hkeys, mem_newKeys]
    simp only [List.not_mem_nil, not_false_iff, and_true]
    constructor
    · intro hx
      obtain ⟨r, hr, rfl⟩ := List.mem_map.mp hx
      exact hvals r hr
    · rintro (rfl | rfl | rfl)
      · exact hAmem
      · exact hBmem
      · exact hCmem
  have hsub : [A, B].Sublist (countsKeys ((recs.map (fun r => r.value)).foldl upsertCount [])) := by
    rw [hkeys]
    exact newKeys_pair_sublist A B _ [] hAB hAmem hBmem (by simp) (by simp) hord
  have hK3 := keys_three_perm _ A B C hnd hmemK hAB hAC hBC hsub
  have hvA : countsVal A ((recs.map (fun r => r.value)).foldl upsertCount []) = some 3 := by
    rw [countsVal_foldl]
    simp [countsVal, hAmem, hcA]
  have hvB : countsVal B ((recs.map (fun r => r.value)).foldl upsertCount []) = some 3 := by
    rw [countsVal_foldl]
    simp [countsVal, hBmem, hcB]
  have hvC : countsVal C ((recs.map (fun r => r.value)).foldl upsertCount []) = some 1 := by
    rw [countsVal_foldl]
    simp [countsVal, hCmem, hcC]
  have hrec := counts_eq_map_keys _ hnd
  have hgm : getMostUsed recs =
      (sortByCountDesc (objectEntries ((recs.map (fun r => r.value)).foldl upsertCount []))).take 5 := by
    simp only [getMostUsed]
    rw [hfold]
  rw [hgm, hrec]
  rcases hK3 with hK | hK | hK <;> rw [hK] <;>
    simp only [List.map_cons, List.map_nil, hvA, hvB, hvC, Option.getD_some] <;>
    cases hiC : canonIndexKey C <;>
    simp [objectEntries, sortByNumAsc, insertByNumAsc, hiA, hiB, hiC,
      sortByCountDesc, insertByCountDesc]

/-- Witness for the amended C2 at concrete non-index values: `"01"` and
`"02"` (leading zero, hence not array-index keys) tie at 3 with `"01"`
recorded first, `"7"` occurs once; the ranking is `["01", "02", "7"]`. -/
theorem getMostUsed_tie_first_encountered_witness :
    getMostUsed [{ type := "phone_call", value := "01", timestamp := "t1", userAgent := "u" }, { type := "phone_call", value := "01", timestamp := "t2", userAgent := "u" }, { type := "phone_call", value := "01", timestamp := "t3", userAgent := "u" }, { type := "phone_call", value := "02", timestamp := "t4", userAgent := "u" }, { type := "phone_call", value := "02", timestamp := "t5", userAgent := "u" }, { type := "phone_call", value := "02", timestamp := "t6", userAgent := "u" }, { type := "phone_call", value := "7", timestamp := "t7", userAgent := "u" }] = [("01", 3), ("02", 3), ("7", 1)] :=
  getMostUsed_tie_first_encountered "01" "02" "7" _ (by decide) (by decide) (by decide)
    (by decide) (by decide) (by decide) (by decide) (by decide) (by decide) (by decide)

end HelpNepal
